import Mathlib

/-!
Shallow embedding of the query/range/download core of the `dumptruckrss`
repository (src/src/query/rangeset.rs, src/src/query/parser.rs,
src/src/query/options.rs, src/src/feed.rs, src/src/main.rs, src/src/utils.rs),
together with theorems settling the specification claims about it.

Rust strings are embedded as `List Char`; `u64` values as `Nat` with an
explicit `< 2^64` bound where the Rust parser would reject overflow;
fallible code returns `Except`/`Option`; the `unimplemented!` panic branch
of the range-merge loop is a distinguished outcome constructor.
-/

namespace Dumptruck

/-! ## String primitives (embedding Rust `str` operations over `List Char`) -/

/-- Whitespace test used by Rust `str::trim` (ASCII subset, which covers
every input the parser receives from the query grammar). -/
def isWs (c : Char) : Bool :=
  c == ' ' || c == '\t' || c == '\n' || c == '\r'

/-- Rust `str::trim_start`. -/
def trimStart (cs : List Char) : List Char := cs.dropWhile isWs

/-- Rust `str::trim_end`. -/
def trimEnd (cs : List Char) : List Char := (cs.reverse.dropWhile isWs).reverse

/-- Rust `str::trim`. -/
def trim (cs : List Char) : List Char := trimEnd (trimStart cs)

/-- Rust `str::trim_start_matches(c)`: drop every leading occurrence of `c`. -/
def trimStartMatches (p : Char) (cs : List Char) : List Char :=
  cs.dropWhile (· == p)

/-- Rust `str::trim_end_matches(c)`: drop every trailing occurrence of `c`. -/
def trimEndMatches (p : Char) (cs : List Char) : List Char :=
  (cs.reverse.dropWhile (· == p)).reverse

/-- Rust `str::split(sep)`: splitting `""` yields `[""]`, and every
separator occurrence produces a boundary. -/
def splitOnChar (sep : Char) : List Char → List (List Char)
  | [] => [[]]
  | c :: rest =>
    match splitOnChar sep rest with
    | [] => [[]]
    | g :: gs => if c == sep then [] :: g :: gs else (c :: g) :: gs

/-- Rust `str::starts_with(c)`. -/
def startsWith (c : Char) : List Char → Bool
  | [] => false
  | x :: _ => x == c

/-- Rust `str::ends_with(c)`. -/
def endsWith (c : Char) (cs : List Char) : Bool := startsWith c cs.reverse

/-- Rust `str::contains(c)` for a single-character pattern. -/
def containsChar (c : Char) (cs : List Char) : Bool := cs.contains c

/-- Numeric value of a digit string (the accumulator loop of integer
parsing). -/
def digitsVal (cs : List Char) : Nat :=
  cs.foldl (fun a c => a * 10 + (c.toNat - 48)) 0

/-- The exclusive upper bound of `u64`. -/
def u64Bound : Nat := 2 ^ 64

/-- Rust `str::parse::<u64>()`: optional leading `+`, then one or more
ASCII digits, no surrounding whitespace; overflow past `u64::MAX` is a
parse error. -/
def parseU64 (cs : List Char) : Option Nat :=
  let cs1 := if cs.head? = some '+' then cs.tail else cs
  if cs1.isEmpty then none
  else if cs1.all Char.isDigit then
    if digitsVal cs1 < u64Bound then some (digitsVal cs1) else none
  else none

instance {e a : Type} [DecidableEq e] [DecidableEq a] :
    DecidableEq (Except e a) := fun x y =>
  match x, y with
  | .ok u, .ok v =>
    if h : u = v then .isTrue (by rw [h]) else .isFalse (by simp [h])
  | .error u, .error v =>
    if h : u = v then .isTrue (by rw [h]) else .isFalse (by simp [h])
  | .ok _, .error _ => .isFalse (by simp)
  | .error _, .ok _ => .isFalse (by simp)

/-! ## rangeset.rs: data model -/

/-- `Range<u64>` from rangeset.rs; the field `endv` embeds the Rust field
`end` (a Lean keyword). `endv = none` is a scalar. -/
structure RangeN where
  start : Nat
  endv : Option Nat
deriving DecidableEq, Repr

instance : Inhabited RangeN := ⟨⟨0, none⟩⟩

/-- `Set<u64>` from rangeset.rs: a `HashSet<Range<u64>>`, embedded as a
`Finset` (deduplicated, order-irrelevant). -/
structure SetN where
  contents : Finset RangeN
deriving DecidableEq

/-- `RangeOrSet<u64>` from rangeset.rs. -/
inductive RangeOrSetN
  | range (r : RangeN)
  | set (s : SetN)
deriving DecidableEq

/-- `ParserError<u64>` from query/error.rs (payload of `ParseInt` dropped:
it carries only the foreign error value). -/
inductive ParserErrorN
  | ParseInt
  | EndLessThanStart (start endv : Nat)
  | EndEqualToStart (start endv : Nat)
  | MissingRangeDelimiter (s : List Char)
  | MissingStart (s : List Char)
  | MissingEnd (s : List Char)
  | Unfinished (s : List Char)
  | EmptySetElement (s : List Char)
  | Recursion (s : List Char)
  | EmptyInput
deriving DecidableEq, Repr

/-- `RANGE_DELIMITER` from query/mod.rs. -/
def RANGE_DELIMITER : Char := ':'

/-! ## rangeset.rs: `parse_range` for `u64` -/

/-- The `maybe_number` string of the `start` binding of `parse_range`
(rangeset.rs lines 137-138): first `RANGE_DELIMITER`-separated piece,
`[`-stripped and trimmed. -/
def startPiece (input : List Char) : List Char :=
  trim (trimStartMatches '[' ((splitOnChar RANGE_DELIMITER input).take 1).flatten)

/-- The `maybe_number` string of the `end` binding of `parse_range`
(rangeset.rs lines 153-158): second `RANGE_DELIMITER`-separated piece,
`]`-stripped and trimmed. -/
def endPiece (input : List Char) : List Char :=
  trim (trimEndMatches ']' (((splitOnChar RANGE_DELIMITER input).drop 1).take 1).flatten)

/-- The `start` binding of `parse_range` (rangeset.rs lines 135-149). -/
def parseRangeStart (input : List Char) (isRange : Bool) :
    Except ParserErrorN Nat :=
  if isRange then
    if containsChar ']' (startPiece input) then .error (.MissingRangeDelimiter input)
    else if (startPiece input).isEmpty then .error (.MissingStart input)
    else match parseU64 (startPiece input) with
      | some n => .ok n
      | none => .error .ParseInt
  else match parseU64 (trim input) with
    | some n => .ok n
    | none => .error .ParseInt

/-- The `end` binding of `parse_range` (rangeset.rs lines 151-177):
the parsed second piece compared against `start`; `none` for a scalar. -/
def parseRangeEnd (input : List Char) (isRange : Bool) (start : Nat) :
    Except ParserErrorN (Option Nat) :=
  if isRange then
    if (endPiece input).isEmpty then .error (.MissingEnd input)
    else match parseU64 (endPiece input) with
      | some number =>
        if start < number then .ok (some number)
        else if number < start then .error (.EndLessThanStart start number)
        else .error (.EndEqualToStart start number)
      | none => .error .ParseInt
  else .ok none

/-- `parse_range` of `impl Parser<u64> for RangeOrSet<u64>`
(rangeset.rs lines 125-180), transcribed clause by clause; `isRange`
is the source's `range` flag. -/
def parse_range (input : List Char) : Except ParserErrorN RangeN :=
  if (startsWith '[' input && !endsWith ']' input)
      || (!startsWith '[' input && endsWith ']' input) then
    .error (.Unfinished input)
  else
    match parseRangeStart input (startsWith '[' input && endsWith ']' input) with
    | .error e => .error e
    | .ok start =>
      match parseRangeEnd input (startsWith '[' input && endsWith ']' input) start with
      | .error e => .error e
      | .ok e => .ok ⟨start, e⟩

/-! ## rangeset.rs: the pairwise merge of `parse_set` -/

/-- The action the merge loop body (rangeset.rs lines 230-297) takes for
one ordered pair `(range1, range2)`: evictions, evictions plus a `start`
update of the partner, nothing, or the `unimplemented!` panic branch. -/
inductive PairAct
  | evict1
  | evict1upd2 (v : Nat)
  | evict2
  | evict2upd1 (v : Nat)
  | keep
  | panic
deriving DecidableEq, Repr

/-- The branch chain of the merge loop body, clause for clause: the
both-ranges chain (contained / partially contained each way / disjoint /
`unimplemented!`), then the two range-scalar clauses; pairs failing every
guard fall through with no action. -/
def pairAct (r1 r2 : RangeN) : PairAct :=
  if r1 = r2 then .keep
  else match r1.endv, r2.endv with
    | some e1, some e2 =>
      if r2.start ≤ r1.start ∧ e1 ≤ e2 then .evict1
      else if r1.start < r2.start ∧ r2.start ≤ e1 ∧ e1 ≤ e2 then .evict1upd2 r1.start
      else if r1.start < r2.start ∧ e2 < e1 then .evict2
      else if r2.start ≤ r1.start ∧ r1.start ≤ e2 ∧ e2 < e1 then .evict2upd1 r2.start
      else if e1 < r2.start ∨ e2 < r1.start then .keep
      else .panic
    | some e1, none =>
      if r1.start ≤ r2.start ∧ r2.start ≤ e1 then .evict2 else .keep
    | none, some e2 =>
      if r2.start ≤ r1.start ∧ r1.start ≤ e2 then .evict1 else .keep
    | none, none => .keep

/-- `HashSet::insert` on the eviction-id set, modelled as a deduplicated
list (iteration order is irrelevant: the ids are sorted before use). -/
def insertIdSet (i : Nat) (l : List Nat) : List Nat :=
  if i ∈ l then l else i :: l

/-- One iteration of the inner merge loop (one `(ri1, ri2)` pair):
apply the pair's action to the accumulated eviction ids and updates;
`none` when the `unimplemented!` branch is reached. -/
def pairStep (numbers : List RangeN) (ri1 : Nat)
    (acc2 : Option (List Nat × List (Nat × Nat))) (ri2 : Nat) :
    Option (List Nat × List (Nat × Nat)) :=
  match acc2 with
  | none => none
  | some (ev, upd) =>
    match pairAct (numbers.getD ri1 default) (numbers.getD ri2 default) with
    | .evict1 => some (insertIdSet ri1 ev, upd)
    | .evict1upd2 v => some (insertIdSet ri1 ev, upd ++ [(ri2, v)])
    | .evict2 => some (insertIdSet ri2 ev, upd)
    | .evict2upd1 v => some (insertIdSet ri2 ev, upd ++ [(ri1, v)])
    | .keep => some (ev, upd)
    | .panic => none

/-- One iteration of the outer merge loop: the inner loop over
`ri2 ∈ [ri1+1, numbers.length)`. -/
def rowStep (numbers : List RangeN)
    (acc : Option (List Nat × List (Nat × Nat))) (ri1 : Nat) :
    Option (List Nat × List (Nat × Nat)) :=
  ((List.range numbers.length).drop (ri1 + 1)).foldl (pairStep numbers ri1) acc

/-- The double loop of rangeset.rs lines 228-299: visit every index pair
`ri1 < ri2`, accumulate the eviction-id set and the ordered update list;
`none` when the `unimplemented!` branch is reached. -/
def scanPairs (numbers : List RangeN) : Option (List Nat × List (Nat × Nat)) :=
  (List.range numbers.length).foldl (rowStep numbers) (some ([], []))

/-- `numbers[update_id].start = new_start` (rangeset.rs line 302). -/
def setStart : List RangeN → Nat → Nat → List RangeN
  | [], _, _ => []
  | r :: rs, 0, v => ⟨v, r.endv⟩ :: rs
  | r :: rs, n + 1, v => r :: setStart rs n v

/-- Apply the recorded start-updates in recording order
(rangeset.rs lines 301-303). -/
def applyUpdates (numbers : List RangeN) (upd : List (Nat × Nat)) : List RangeN :=
  upd.foldl (fun ns iv => setStart ns iv.1 iv.2) numbers

/-- Insert into an ascending-sorted list (helper for `sortAsc`). -/
def insertSorted (x : Nat) : List Nat → List Nat
  | [] => [x]
  | y :: ys => if x ≤ y then x :: y :: ys else y :: insertSorted x ys

/-- Ascending insertion sort (the `eviction_ids.sort()` call). -/
def sortAsc (l : List Nat) : List Nat := l.foldr insertSorted []

/-- Sort the eviction ids, reverse, and `Vec::remove` each
(rangeset.rs lines 305-311). -/
def applyEvictions (numbers : List RangeN) (ev : List Nat) : List RangeN :=
  ((sortAsc ev).reverse).foldl (fun ns i => ns.eraseIdx i) numbers

/-- The whole merge pass of `parse_set`: scan all pairs, apply updates,
then evictions, and collect into the `HashSet`; `none` when the scan hit
the `unimplemented!` branch. -/
def mergeNumbers (numbers : List RangeN) : Option (Finset RangeN) :=
  match scanPairs numbers with
  | none => none
  | some (ev, upd) => some (applyEvictions (applyUpdates numbers upd) ev).toFinset

/-- Outcome of `parse_set`: a parsed set, a parser error, or the
`unimplemented!` panic of the merge loop. -/
inductive SetOutcome
  | ok (s : SetN)
  | err (e : ParserErrorN)
  | panicked
deriving DecidableEq

/-- The `str_trimmed` binding of `parse_set` (rangeset.rs line 184). -/
def setStrTrimmed (input : List Char) : List Char :=
  trimStartMatches '{' (trimEndMatches '}' input)

/-- The `list_of_str_numbers` binding of `parse_set`
(rangeset.rs lines 190-193): split on `,` and trim every element. -/
def setPieces (input : List Char) : List (List Char) :=
  (splitOnChar ',' (setStrTrimmed input)).map trim

/-- The `numbers_parsed` binding of `parse_set` (rangeset.rs lines
205-208): parse every element with `parse_range`. -/
def setParsed (input : List Char) : List (Except ParserErrorN RangeN) :=
  (setPieces input).map parse_range

/-- The first element-parse error, if any (`find(|res| res.is_err())`,
rangeset.rs line 210). -/
def setFirstErr (input : List Char) : Option ParserErrorN :=
  ((setParsed input).filterMap
    (fun r => match r with | .error e => some e | .ok _ => none)).head?

/-- The `numbers` binding of `parse_set` (rangeset.rs lines 216-222):
the successfully parsed ranges. -/
def setNumbers (input : List Char) : List RangeN :=
  (setParsed input).filterMap
    (fun r => match r with | .ok rg => some rg | .error _ => none)

/-- `parse_set` of `impl Parser<u64> for RangeOrSet<u64>`
(rangeset.rs lines 182-315): strip braces, reject nested braces and empty
elements, parse each element with `parse_range` (first error wins), then
run the merge pass. -/
def parse_set (input : List Char) : SetOutcome :=
  if containsChar '{' (setStrTrimmed input)
      || containsChar '}' (setStrTrimmed input) then
    .err (.Recursion input)
  else if (setPieces input).any List.isEmpty then
    .err (.EmptySetElement input)
  else match setFirstErr input with
    | some e => .err e
    | none =>
      match mergeNumbers (setNumbers input) with
      | none => .panicked
      | some s => .ok ⟨s⟩

/-! ## Helper lemmas about the string primitives -/

theorem dropWhile_eq_self_of {p : Char → Bool} {l : List Char}
    (h : ∀ c ∈ l, p c = false) : l.dropWhile p = l := by
  cases l with
  | nil => rfl
  | cons a as => simp [List.dropWhile_cons, h a (by simp)]

theorem isWs_eq_false_of_isDigit {c : Char} (h : c.isDigit = true) :
    isWs c = false := by
  have h1 : c ≠ ' ' := by rintro rfl; exact absurd h (by decide)
  have h2 : c ≠ '\t' := by rintro rfl; exact absurd h (by decide)
  have h3 : c ≠ '\n' := by rintro rfl; exact absurd h (by decide)
  have h4 : c ≠ '\r' := by rintro rfl; exact absurd h (by decide)
  simp [isWs, h1, h2, h3, h4]

theorem ne_of_isDigit {c d : Char} (h : c.isDigit = true)
    (hd : d.isDigit = false) : c ≠ d := by
  rintro rfl; rw [h] at hd; exact absurd hd (by simp)

theorem trim_eq_self_of_digits {l : List Char} (h : l.all Char.isDigit = true) :
    trim l = l := by
  have hws : ∀ c ∈ l, isWs c = false := fun c hc =>
    isWs_eq_false_of_isDigit (by
      have := List.all_eq_true.mp h c hc
      simpa using this)
  unfold trim trimStart trimEnd
  rw [dropWhile_eq_self_of hws, dropWhile_eq_self_of (fun c hc => hws c (List.mem_reverse.mp hc)),
    List.reverse_reverse]

theorem containsChar_eq_false_of_digits {l : List Char} {d : Char}
    (h : l.all Char.isDigit = true) (hd : d.isDigit = false) :
    containsChar d l = false := by
  simp only [containsChar, List.contains_eq_any_beq]
  rw [List.all_eq_true] at h
  rw [List.any_eq_false]
  intro c hc
  simpa using (ne_of_isDigit (by simpa using h c hc) hd).symm

theorem not_mem_of_digits {l : List Char} {d : Char}
    (h : l.all Char.isDigit = true) (hd : d.isDigit = false) : d ∉ l := by
  intro hmem
  have := List.all_eq_true.mp h d hmem
  rw [hd] at this
  exact Bool.false_ne_true this

theorem parseU64_digits {l : List Char} (h1 : l ≠ [])
    (h2 : l.all Char.isDigit = true) (h3 : digitsVal l < u64Bound) :
    parseU64 l = some (digitsVal l) := by
  obtain ⟨a, as, rfl⟩ := List.exists_cons_of_ne_nil h1
  have ha : a.isDigit = true := by
    have := List.all_eq_true.mp h2 a (by simp)
    simpa using this
  have hplus : a ≠ '+' := ne_of_isDigit ha (by decide)
  unfold parseU64
  simp only [List.head?_cons, Option.some.injEq]
  rw [if_neg hplus]
  simp [h2, h3]

theorem splitOnChar_not_mem {c : Char} {l : List Char} (h : c ∉ l) :
    splitOnChar c l = [l] := by
  induction l with
  | nil => rfl
  | cons a as ih =>
    have hac : ¬(a == c) = true := by
      simp only [beq_iff_eq]
      rintro rfl
      exact h (by simp)
    rw [splitOnChar, ih (fun hm => h (by simp [hm]))]
    simp [hac]

theorem dropWhile_beq_eq_self_of_digits {l : List Char} {d : Char}
    (h : l.all Char.isDigit = true) (hd : d.isDigit = false) :
    l.dropWhile (· == d) = l :=
  dropWhile_eq_self_of (fun c hc => by
    simp only [beq_eq_false_iff_ne]
    exact ne_of_isDigit (by simpa using List.all_eq_true.mp h c hc) hd)

theorem trimStartMatches_bracket_digits {dsa : List Char}
    (h : dsa.all Char.isDigit = true) :
    trimStartMatches '[' ('[' :: dsa) = dsa := by
  unfold trimStartMatches
  rw [List.dropWhile_cons]
  simp only [beq_self_eq_true, if_true]
  exact dropWhile_beq_eq_self_of_digits h (by decide)

theorem trimEndMatches_bracket_digits {dsb : List Char}
    (h : dsb.all Char.isDigit = true) :
    trimEndMatches ']' (dsb ++ [']']) = dsb := by
  unfold trimEndMatches
  rw [List.reverse_append, List.reverse_singleton, List.singleton_append,
    List.dropWhile_cons]
  simp only [beq_self_eq_true, if_true]
  rw [dropWhile_beq_eq_self_of_digits (by simpa using h) (by decide),
    List.reverse_reverse]

theorem splitOnChar_ne_nil {c : Char} (l : List Char) :
    splitOnChar c l ≠ [] := by
  cases l with
  | nil => simp [splitOnChar]
  | cons a as =>
    rw [splitOnChar]
    rcases splitOnChar c as with _ | ⟨g, gs⟩
    · simp
    · dsimp only
      split <;> simp

theorem splitOnChar_append {c : Char} {l1 l2 : List Char} (h : c ∉ l1) :
    splitOnChar c (l1 ++ c :: l2) = l1 :: splitOnChar c l2 := by
  induction l1 with
  | nil =>
    rw [List.nil_append, splitOnChar]
    cases hs : splitOnChar c l2 with
    | nil => exact absurd hs (splitOnChar_ne_nil l2)
    | cons g gs => simp
  | cons a as ih =>
    have hac : ¬(a == c) = true := by
      simp only [beq_iff_eq]
      rintro rfl
      exact h (by simp)
    rw [List.cons_append, splitOnChar, ih (fun hm => h (by simp [hm]))]
    simp [hac]

/-- Successful `parse_range` results never violate the strict-order
invariant: a constructed `Range` with `endv = some e` has `start < e`
(the `Ordering::Greater` arm is the only one producing `Some`). -/
theorem parseRangeEnd_ok_some {input : List Char} {isRange : Bool}
    {start e : Nat} (h : parseRangeEnd input isRange start = .ok (some e)) :
    start < e := by
  unfold parseRangeEnd at h
  split at h
  · split at h
    · exact absurd h (by simp)
    · split at h
      · split at h
        · simp only [Except.ok.injEq, Option.some.injEq] at h
          omega
        · split at h <;> exact absurd h (by simp)
      · exact absurd h (by simp)
  · exact absurd h (by simp)

theorem parse_range_end_gt_start {input : List Char} {s e : Nat}
    (h : parse_range input = .ok ⟨s, some e⟩) : s < e := by
  unfold parse_range at h
  split at h
  · exact absurd h (by simp)
  · split at h
    · exact absurd h (by simp)
    · rename_i start heqStart
      split at h
      · exact absurd h (by simp)
      · rename_i eo heqEnd
        simp only [Except.ok.injEq, RangeN.mk.injEq] at h
        obtain ⟨rfl, rfl⟩ := h
        exact parseRangeEnd_ok_some heqEnd

theorem endsWith_concat (c : Char) (l : List Char) :
    endsWith c (l ++ [c]) = true := by
  simp [endsWith, startsWith, List.reverse_append]

theorem isEmpty_eq_false_of_ne_nil {l : List Char} (h : l ≠ []) :
    l.isEmpty = false := by
  cases l with
  | nil => exact absurd rfl h
  | cons a as => rfl

theorem colon_not_mem_digits {l : List Char} (h : l.all Char.isDigit = true) :
    RANGE_DELIMITER ∉ l :=
  not_mem_of_digits h (by decide)

/-- Splitting a well-formed `[a:b]` text at the delimiter yields exactly
the two bracketed pieces. -/
theorem splitOnChar_wellformed_range {dsa dsb : List Char}
    (hda : dsa.all Char.isDigit = true) (hdb : dsb.all Char.isDigit = true) :
    splitOnChar RANGE_DELIMITER (('[' :: dsa) ++ ':' :: (dsb ++ [']'])) =
      [('[' :: dsa), dsb ++ [']']] := by
  have h1 : RANGE_DELIMITER ∉ '[' :: dsa := by
    intro hm
    rcases List.mem_cons.mp hm with h | h
    · exact absurd h (by decide)
    · exact colon_not_mem_digits hda h
  have h2 : RANGE_DELIMITER ∉ dsb ++ [']'] := by
    intro hm
    rcases List.mem_append.mp hm with h | h
    · exact colon_not_mem_digits hdb h
    · simp at h
      exact absurd h (by decide)
  have hdelim : (':' : Char) = RANGE_DELIMITER := by rfl
  rw [hdelim, splitOnChar_append h1, splitOnChar_not_mem h2]

theorem startPiece_wellformed_range {dsa dsb : List Char}
    (hda : dsa.all Char.isDigit = true) (hdb : dsb.all Char.isDigit = true) :
    startPiece (('[' :: dsa) ++ ':' :: (dsb ++ [']'])) = dsa := by
  unfold startPiece
  rw [splitOnChar_wellformed_range hda hdb]
  simp only [List.take_succ_cons, List.take_zero, List.flatten_cons,
    List.flatten_nil, List.append_nil]
  rw [trimStartMatches_bracket_digits hda, trim_eq_self_of_digits hda]

theorem endPiece_wellformed_range {dsa dsb : List Char}
    (hda : dsa.all Char.isDigit = true) (hdb : dsb.all Char.isDigit = true) :
    endPiece (('[' :: dsa) ++ ':' :: (dsb ++ [']'])) = dsb := by
  unfold endPiece
  rw [splitOnChar_wellformed_range hda hdb]
  simp only [List.drop_succ_cons, List.drop_zero, List.take_succ_cons,
    List.take_zero, List.flatten_cons, List.flatten_nil, List.append_nil]
  rw [trimEndMatches_bracket_digits hdb, trim_eq_self_of_digits hdb]

/-- C4: for every well-formed numeric range text `[a:b]` (digit strings
`a`, `b` within `u64`), `parse_range` yields `Range{start:a, end:Some(b)}`
when `a < b`, the `EndEqualToStart` error carrying both bounds when
`a = b` and the `EndLessThanStart` error carrying both bounds when
`a > b`; moreover no successful `parse_range` result ever has
`end ≤ start`. -/
theorem c4_parse_range_wellformed (dsa dsb : List Char)
    (ha : dsa ≠ []) (hb : dsb ≠ [])
    (hda : dsa.all Char.isDigit = true) (hdb : dsb.all Char.isDigit = true)
    (hba : digitsVal dsa < u64Bound) (hbb : digitsVal dsb < u64Bound) :
    (parse_range (('[' :: dsa) ++ ':' :: (dsb ++ [']'])) =
      if digitsVal dsa < digitsVal dsb then
        .ok ⟨digitsVal dsa, some (digitsVal dsb)⟩
      else if digitsVal dsb < digitsVal dsa then
        .error (.EndLessThanStart (digitsVal dsa) (digitsVal dsb))
      else .error (.EndEqualToStart (digitsVal dsa) (digitsVal dsb)))
    ∧ (∀ input s e, parse_range input = .ok ⟨s, some e⟩ → s < e) := by
  refine ⟨?_, fun input s e h => parse_range_end_gt_start h⟩
  have hsw : startsWith '[' (('[' :: dsa) ++ ':' :: (dsb ++ [']'])) = true := rfl
  have hew : endsWith ']' (('[' :: dsa) ++ ':' :: (dsb ++ [']'])) = true := by
    have hassoc : (('[' :: dsa) ++ ':' :: (dsb ++ [']'])) =
        (('[' :: dsa) ++ ':' :: dsb) ++ [']'] := by
      simp [List.append_assoc]
    rw [hassoc, endsWith_concat]
  have hstart : parseRangeStart (('[' :: dsa) ++ ':' :: (dsb ++ [']'])) true =
      .ok (digitsVal dsa) := by
    unfold parseRangeStart
    rw [if_pos rfl, startPiece_wellformed_range hda hdb,
      containsChar_eq_false_of_digits hda (by decide),
      isEmpty_eq_false_of_ne_nil ha, parseU64_digits ha hda hba]
    rfl
  have hend : parseRangeEnd (('[' :: dsa) ++ ':' :: (dsb ++ [']'])) true
      (digitsVal dsa) =
      if digitsVal dsa < digitsVal dsb then .ok (some (digitsVal dsb))
      else if digitsVal dsb < digitsVal dsa then
        .error (.EndLessThanStart (digitsVal dsa) (digitsVal dsb))
      else .error (.EndEqualToStart (digitsVal dsa) (digitsVal dsb)) := by
    unfold parseRangeEnd
    rw [if_pos rfl, endPiece_wellformed_range hda hdb,
      isEmpty_eq_false_of_ne_nil hb, parseU64_digits hb hdb hbb]
    rfl
  rw [parse_range, hsw, hew]
  simp only [Bool.not_true, Bool.and_false, Bool.false_and, Bool.or_self,
    Bool.false_eq_true, if_false, Bool.and_self]
  rw [hstart]
  dsimp only
  rw [hend]
  rcases Nat.lt_trichotomy (digitsVal dsa) (digitsVal dsb) with h | h | h
  · rw [if_pos h, if_pos h]
  · rw [if_neg (by omega), if_neg (by omega), if_neg (by omega), if_neg (by omega)]
  · rw [if_neg (by omega), if_pos h, if_neg (by omega), if_pos h]

/-- Witness for C4 at the concrete input `[2:5]`. -/
theorem c4_parse_range_wellformed_witness :
    parse_range (('[' :: ['2']) ++ ':' :: (['5'] ++ [']'])) = .ok ⟨2, some 5⟩ := by
  have h := (c4_parse_range_wellformed ['2'] ['5'] (by decide) (by decide)
    (by decide) (by decide) (by decide) (by decide)).1
  rw [h]
  decide

/-! ## C2: the merge loop's `unimplemented!` branch is unreachable -/

theorem pairAct_ne_panic (r1 r2 : RangeN) : pairAct r1 r2 ≠ .panic := by
  unfold pairAct
  split
  · simp
  · split
    · split_ifs with h1 h2 h3 h4 h5 <;> simp
      omega
    · split <;> simp
    · split <;> simp
    · simp

theorem pairStep_isSome {numbers : List RangeN} {ri1 ri2 : Nat}
    {acc : Option (List Nat × List (Nat × Nat))} (h : acc.isSome) :
    (pairStep numbers ri1 acc ri2).isSome := by
  match acc with
  | none => simp at h
  | some (ev, upd) =>
    unfold pairStep
    cases hact : pairAct (numbers.getD ri1 default) (numbers.getD ri2 default) <;>
      simp
    exact pairAct_ne_panic _ _ hact

theorem foldl_pairStep_isSome (numbers : List RangeN) (ri1 : Nat)
    (l : List Nat) (acc : Option (List Nat × List (Nat × Nat)))
    (h : acc.isSome) : (l.foldl (pairStep numbers ri1) acc).isSome := by
  induction l generalizing acc with
  | nil => exact h
  | cons x xs ih => exact ih _ (pairStep_isSome h)

theorem rowStep_isSome {numbers : List RangeN} {ri1 : Nat}
    {acc : Option (List Nat × List (Nat × Nat))} (h : acc.isSome) :
    (rowStep numbers acc ri1).isSome :=
  foldl_pairStep_isSome numbers ri1 _ acc h

theorem scanPairs_isSome (numbers : List RangeN) :
    (scanPairs numbers).isSome := by
  unfold scanPairs
  generalize (List.range numbers.length) = l
  have : ∀ (l : List Nat) (acc : Option (List Nat × List (Nat × Nat))),
      acc.isSome → (l.foldl (rowStep numbers) acc).isSome := by
    intro l
    induction l with
    | nil => exact fun _ h => h
    | cons x xs ih => exact fun acc h => ih _ (rowStep_isSome h)
  exact this l _ rfl

theorem mergeNumbers_isSome (numbers : List RangeN) :
    (mergeNumbers numbers).isSome := by
  unfold mergeNumbers
  have h := scanPairs_isSome numbers
  match hs : scanPairs numbers with
  | none => rw [hs] at h; simp at h
  | some (ev, upd) => simp

/-- C2: the five explicit overlap cases of the merge loop are exhaustive
for every pair of ranges (the `unimplemented!` branch is never selected),
and consequently `parse_set` is total: on no input does it reach the
panic branch. -/
theorem c2_parse_set_never_panics :
    (∀ r1 r2 : RangeN, pairAct r1 r2 ≠ .panic)
    ∧ (∀ input : List Char, parse_set input ≠ .panicked) := by
  refine ⟨pairAct_ne_panic, fun input => ?_⟩
  unfold parse_set
  split
  · simp
  · split
    · simp
    · split
      · simp
      · have h := mergeNumbers_isSome (setNumbers input)
        match hm : mergeNumbers (setNumbers input) with
        | none => rw [hm] at h; simp at h
        | some s => simp

/-- Witness for C2 at a concrete input. -/
theorem c2_parse_set_never_panics_witness :
    parse_set ('1' :: []) ≠ .panicked :=
  c2_parse_set_never_panics.2 ('1' :: [])

/-! ## C1: the pairwise merge on two-element sets -/

/-- Closed form of the whole merge pass on a two-element list: exactly
one pair `(0, 1)` is visited, so the result is determined by
`pairAct r1 r2`. -/
theorem mergeTwo (r1 r2 : RangeN) :
    mergeNumbers [r1, r2] =
      match pairAct r1 r2 with
      | .evict1 => some [r2].toFinset
      | .evict1upd2 v => some [(⟨v, r2.endv⟩ : RangeN)].toFinset
      | .evict2 => some [r1].toFinset
      | .evict2upd1 v => some [(⟨v, r1.endv⟩ : RangeN)].toFinset
      | .keep => some [r1, r2].toFinset
      | .panic => none := by
  cases hact : pairAct r1 r2 <;>
    simp [mergeNumbers, scanPairs, rowStep, pairStep, applyUpdates,
      applyEvictions, setStart, sortAsc, insertSorted, insertIdSet,
      List.range_succ, List.eraseIdx, hact]

/-- `pairAct` on two proper ranges, spelt out over the bounds. -/
theorem pairAct_ranges (s1 e1 s2 e2 : Nat) :
    pairAct ⟨s1, some e1⟩ ⟨s2, some e2⟩ =
      if s1 = s2 ∧ e1 = e2 then .keep
      else if s2 ≤ s1 ∧ e1 ≤ e2 then .evict1
      else if s1 < s2 ∧ s2 ≤ e1 ∧ e1 ≤ e2 then .evict1upd2 s1
      else if s1 < s2 ∧ e2 < e1 then .evict2
      else if s2 ≤ s1 ∧ s1 ≤ e2 ∧ e2 < e1 then .evict2upd1 s2
      else if e1 < s2 ∨ e2 < s1 then .keep
      else .panic := by
  unfold pairAct
  by_cases heq : (⟨s1, some e1⟩ : RangeN) = ⟨s2, some e2⟩
  · rw [if_pos heq, if_pos (by simpa [RangeN.mk.injEq] using heq)]
  · rw [if_neg heq, if_neg (by simpa [RangeN.mk.injEq] using heq)]

/-- `pairAct` with a scalar first and a proper range second. -/
theorem pairAct_scalar_range (s1 s2 e2 : Nat) :
    pairAct ⟨s1, none⟩ ⟨s2, some e2⟩ =
      if s2 ≤ s1 ∧ s1 ≤ e2 then .evict1 else .keep := by
  unfold pairAct
  rw [if_neg (by simp)]

/-- `pairAct` with a proper range first and a scalar second. -/
theorem pairAct_range_scalar (s1 e1 s2 : Nat) :
    pairAct ⟨s1, some e1⟩ ⟨s2, none⟩ =
      if s1 ≤ s2 ∧ s2 ≤ e1 then .evict2 else .keep := by
  unfold pairAct
  rw [if_neg (by simp)]

/-- C1: for a parsed pair of ranges/scalars satisfying the strict
invariant, the pairwise merge of `parse_set` drops a range fully
contained in another, replaces two partially overlapping ranges by their
union (start = min of starts, end = max of ends), leaves disjoint ranges
untouched and drops a scalar lying within a range's inclusive bounds;
in particular `{[20:25],[19:20]}` parses to `{[19:25]}` and
`{[20:25],[23:26]}` parses to `{[20:26]}`. -/
theorem c1_parse_set_merge (s1 e1 s2 e2 : Nat) (h1 : s1 < e1) (h2 : s2 < e2) :
    ((s2 ≤ s1 ∧ e1 ≤ e2) →
      mergeNumbers [⟨s1, some e1⟩, ⟨s2, some e2⟩] = some {⟨s2, some e2⟩})
    ∧ ((s1 ≤ s2 ∧ e2 ≤ e1) →
      mergeNumbers [⟨s1, some e1⟩, ⟨s2, some e2⟩] = some {⟨s1, some e1⟩})
    ∧ ((s1 ≤ e2 ∧ s2 ≤ e1 ∧ ¬(s2 ≤ s1 ∧ e1 ≤ e2) ∧ ¬(s1 ≤ s2 ∧ e2 ≤ e1)) →
      mergeNumbers [⟨s1, some e1⟩, ⟨s2, some e2⟩] =
        some {⟨min s1 s2, some (max e1 e2)⟩})
    ∧ ((e1 < s2 ∨ e2 < s1) →
      mergeNumbers [⟨s1, some e1⟩, ⟨s2, some e2⟩] =
        some {⟨s1, some e1⟩, ⟨s2, some e2⟩})
    ∧ ((s2 ≤ s1 ∧ s1 ≤ e2) →
      mergeNumbers [⟨s1, none⟩, ⟨s2, some e2⟩] = some {⟨s2, some e2⟩})
    ∧ ((s1 ≤ s2 ∧ s2 ≤ e1) →
      mergeNumbers [⟨s1, some e1⟩, ⟨s2, none⟩] = some {⟨s1, some e1⟩})
    ∧ parse_set "{[20:25],[19:20]}".toList = .ok ⟨{⟨19, some 25⟩}⟩
    ∧ parse_set "{[20:25],[23:26]}".toList = .ok ⟨{⟨20, some 26⟩}⟩ := by
  refine ⟨?_, ?_, ?_, ?_, ?_, ?_, by decide, by decide⟩
  · intro hc
    rw [mergeTwo, pairAct_ranges]
    by_cases heq : s1 = s2 ∧ e1 = e2
    · obtain ⟨rfl, rfl⟩ := heq
      rw [if_pos ⟨rfl, rfl⟩]
      simp
    · rw [if_neg heq, if_pos hc]
      simp
  · intro hc
    rw [mergeTwo, pairAct_ranges]
    by_cases heq : s1 = s2 ∧ e1 = e2
    · obtain ⟨rfl, rfl⟩ := heq
      rw [if_pos ⟨rfl, rfl⟩]
      simp
    · rw [if_neg heq]
      by_cases hb1 : s2 ≤ s1 ∧ e1 ≤ e2
      · -- then s1 = s2 and e1 = e2, contradicting heq
        exact absurd ⟨by omega, by omega⟩ heq
      · rw [if_neg hb1]
        by_cases hb2 : s1 < s2 ∧ s2 ≤ e1 ∧ e1 ≤ e2
        · -- e1 = e2, result is the updated range ⟨s1, e2⟩ = ⟨s1, e1⟩
          rw [if_pos hb2]
          simp only [List.toFinset_cons, List.toFinset_nil, insert_emptyc_eq,
            Option.some.injEq]
          have : e2 = e1 := by omega
          rw [this]
        · rw [if_neg hb2]
          by_cases hb3 : s1 < s2 ∧ e2 < e1
          · rw [if_pos hb3]
            simp
          · rw [if_neg hb3, if_pos (by omega : s2 ≤ s1 ∧ s1 ≤ e2 ∧ e2 < e1)]
            simp only [List.toFinset_cons, List.toFinset_nil, insert_emptyc_eq,
              Option.some.injEq]
            have : s2 = s1 := by omega
            rw [this]
  · intro hc
    rw [mergeTwo, pairAct_ranges]
    rw [if_neg (by omega : ¬(s1 = s2 ∧ e1 = e2)), if_neg (by omega : ¬(s2 ≤ s1 ∧ e1 ≤ e2))]
    by_cases hb2 : s1 < s2 ∧ s2 ≤ e1 ∧ e1 ≤ e2
    · rw [if_pos hb2]
      simp only [List.toFinset_cons, List.toFinset_nil, insert_emptyc_eq,
        Option.some.injEq]
      have hmin : min s1 s2 = s1 := by omega
      have hmax : max e1 e2 = e2 := by omega
      rw [hmin, hmax]
    · rw [if_neg hb2, if_neg (by omega : ¬(s1 < s2 ∧ e2 < e1)),
        if_pos (by omega : s2 ≤ s1 ∧ s1 ≤ e2 ∧ e2 < e1)]
      simp only [List.toFinset_cons, List.toFinset_nil, insert_emptyc_eq,
        Option.some.injEq]
      have hmin : min s1 s2 = s2 := by omega
      have hmax : max e1 e2 = e1 := by omega
      rw [hmin, hmax]
  · intro hc
    rw [mergeTwo, pairAct_ranges]
    rw [if_neg (by omega : ¬(s1 = s2 ∧ e1 = e2)),
      if_neg (by omega : ¬(s2 ≤ s1 ∧ e1 ≤ e2)),
      if_neg (by omega : ¬(s1 < s2 ∧ s2 ≤ e1 ∧ e1 ≤ e2)),
      if_neg (by omega : ¬(s1 < s2 ∧ e2 < e1)),
      if_neg (by omega : ¬(s2 ≤ s1 ∧ s1 ≤ e2 ∧ e2 < e1)),
      if_pos hc]
    simp [Finset.Insert.comm]
  · intro hc
    rw [mergeTwo, pairAct_scalar_range, if_pos hc]
    simp
  · intro hc
    rw [mergeTwo, pairAct_range_scalar, if_pos hc]
    simp

/-- Witness for C1 at the concrete bounds of the spec's first example. -/
theorem c1_parse_set_merge_witness :
    mergeNumbers [⟨20, some 25⟩, ⟨19, some 20⟩] = some {⟨19, some 25⟩} := by
  have h := (c1_parse_set_merge 20 25 19 20 (by decide) (by decide)).2.2.1
  have h2 := h (by decide)
  simpa using h2

/-! ## C3: `PartialEq for Set<T>` (rangeset.rs lines 49-57) -/

/-- `impl PartialEq for Set<T>`: the code computes
`self.contents.difference(&other.contents)` — the one-sided difference —
and tests it for emptiness. -/
def setEqImpl {α : Type} [DecidableEq α] (c1 c2 : Finset α) : Bool :=
  decide (c1 \ c2 = ∅)

/-- `Set<u64> == Set<u64>` as the code defines it. -/
def SetN.eqOp (s1 s2 : SetN) : Bool := setEqImpl s1.contents s2.contents

/-- Counterexample to C3: `Set` equality as implemented is not symmetric
and a set with strictly fewer ranges can compare equal to a larger one:
the empty set compares equal to `{0}` but not conversely. -/
theorem c3_set_eq_counterexample :
    SetN.eqOp ⟨∅⟩ ⟨{⟨0, none⟩}⟩ = true
    ∧ SetN.eqOp ⟨{⟨0, none⟩}⟩ ⟨∅⟩ = false
    ∧ (⟨∅⟩ : SetN).contents.card < (⟨{⟨0, none⟩}⟩ : SetN).contents.card := by
  refine ⟨by decide, by decide, by decide⟩

/-- C3 amended: `s1 == s2` holds iff the one-sided difference
`s1 \ s2` is empty, i.e. iff every range of `s1` is contained in `s2`
(subset). This is reflexive and transitive but not symmetric. -/
theorem c3_set_eq_amended (s1 s2 : SetN) :
    SetN.eqOp s1 s2 = true ↔ s1.contents ⊆ s2.contents := by
  unfold SetN.eqOp setEqImpl
  rw [decide_eq_true_iff]
  exact Finset.sdiff_eq_empty_iff_subset

/-! ## options.rs: data model for query options and predicates

Dates (`chrono::NaiveDate`) are embedded as `Int` (their linearly ordered
day ordinal); RFC 2822 date parsing is external (chrono) and enters as a
function parameter. Feed items (`rss::Item`) carry their optional fields
exactly as the `rss` crate accessors expose them. -/

/-- `Range<NaiveDate>`. -/
structure RangeD where
  start : Int
  endv : Option Int
deriving DecidableEq, Repr

/-- `Set<NaiveDate>`. -/
structure SetD where
  contents : Finset RangeD
deriving DecidableEq

/-- `RangeOrSet<NaiveDate>`. -/
inductive RangeOrSetD
  | range (r : RangeD)
  | set (s : SetD)
deriving DecidableEq

/-- `Range<String>` (always a scalar: `parse_range` for `String` sets
`end: None`). -/
structure RangeS where
  start : List Char
  endv : Option (List Char)
deriving DecidableEq, Repr

/-- `Set<String>`. -/
structure SetS where
  contents : Finset RangeS
deriving DecidableEq

/-- `RangeOrSet<String>`. -/
inductive RangeOrSetS
  | range (r : RangeS)
  | set (s : SetS)
deriving DecidableEq

/-- `rss::Enclosure`: the fields the program reads. -/
structure Enclosure where
  url : List Char
  mimeType : List Char
deriving DecidableEq, Repr

/-- `rss::Item`: the optional accessors the predicates read
(`title()`, `description()`, `pub_date()`, `enclosure()`). -/
structure Item where
  title : Option (List Char)
  description : Option (List Char)
  pubDate : Option (List Char)
  enclosure : Option Enclosure
deriving DecidableEq, Repr

/-- The slice of `Feed` visible to predicates: the output-directory
configuration (`feed.get_config_output()`). -/
structure FeedM where
  configOutput : List Char
deriving DecidableEq, Repr

/-- Outcome of evaluating a compiled predicate on an item: a boolean, or
a Rust panic (an `unwrap` of a missing field or an unknown MIME type). -/
inductive PredResult
  | ok (b : Bool)
  | panicked
deriving DecidableEq, Repr

/-- `QueryOperationOptions` from options.rs. -/
inductive QueryOperationOptions
  | Date (ros : RangeOrSetD)
  | Title (ros : RangeOrSetS)
  | Description (ros : RangeOrSetS)
  | Number (ros : RangeOrSetN)
  | NotExists
deriving DecidableEq

/-- `QueryError` from query/error.rs (the variants reachable from the
embedded branches). -/
inductive QueryErrorM
  | InvalidQueryOption (s : List Char)
  | Number (e : ParserErrorN)
deriving DecidableEq

/-- Rust `str::starts_with(needle)` / prefix test. -/
def isPrefixOfB : List Char → List Char → Bool
  | [], _ => true
  | _ :: _, [] => false
  | a :: as, b :: bs => a == b && isPrefixOfB as bs

/-- Rust `str::contains(needle)`: substring containment. -/
def isInfixOfB (needle : List Char) : List Char → Bool
  | [] => needle.isEmpty
  | c :: rest => isPrefixOfB needle (c :: rest) || isInfixOfB needle rest

/-! ## utils.rs / ext.rs: `create_file_path` -/

/-- `AudioType::get_extension_from_mime` (ext.rs): the five known MIME
types; `none` models the `panic!` on anything else. -/
def getExtensionFromMime (mime : List Char) : Option (List Char) :=
  if mime = "audio/mpeg".toList then some "mp3".toList
  else if mime = "audio/aac".toList then some "aac".toList
  else if mime = "audio/ogg".toList then some "ogg".toList
  else if mime = "audio/mp4".toList then some "mp4".toList
  else if mime = "audio/x-m4a".toList then some "m4a".toList
  else none

/-- `create_file_path` (utils.rs lines 43-54): join the output directory
with the `/`-sanitized title and the MIME-derived extension (modelled for
dot-free titles, where `set_extension` appends `.ext`); `none` models the
`panic!` on an unknown MIME type. -/
def create_file_path (dir : List Char) (mime : List Char) (title : List Char) :
    Option (List Char) :=
  match getExtensionFromMime mime with
  | none => none
  | some ext =>
    some (dir ++ '/' :: (title.map (fun c => if c = '/' then '-' else c))
      ++ '.' :: ext)

/-! ## options.rs: `build_func` -/

/-- Membership of an ordinal in one `Range<u64>` (the loop body of the
set arm of the `Number` closure): inclusive bounds for a range, equality
for a scalar. -/
def numberMatches (n : Nat) (r : RangeN) : Bool :=
  match r.endv with
  | some e => decide (r.start ≤ n) && decide (n ≤ e)
  | none => n == r.start

/-- The value-level function built for a `Number` option
(options.rs lines 63-87): inclusive range membership, scalar equality, or
any-member membership for a set (the set iteration is order-independent,
embedded as a decidable existential over the `HashSet` contents). -/
def numberFunc (ros : RangeOrSetN) (n : Nat) : Bool :=
  match ros with
  | .range r => numberMatches n r
  | .set s => decide (∃ r ∈ s.contents, numberMatches n r = true)

/-- Membership of a date in one `Range<NaiveDate>`. -/
def dateMatches (d : Int) (r : RangeD) : Bool :=
  match r.endv with
  | some e => decide (r.start ≤ d) && decide (d ≤ e)
  | none => d == r.start

/-- The value-level function built for a `Date` option
(options.rs lines 24-47). -/
def dateFunc (ros : RangeOrSetD) (d : Int) : Bool :=
  match ros with
  | .range r => dateMatches d r
  | .set s => decide (∃ r ∈ s.contents, dateMatches d r = true)

/-- The compiled `Number` predicate (options.rs line 87): applied to the
item's ordinal position `n`, ignoring the item and the feed. -/
def numberItemPred (ros : RangeOrSetN) (_item : Item) (n : Nat) (_feed : FeedM) :
    PredResult :=
  .ok (numberFunc ros n)

/-- The compiled `Date` predicate (options.rs lines 49-61):
`i.pub_date().unwrap()` (panic when absent), then RFC 2822 parsing via
chrono (the `parseRfc2822` parameter); a parse failure logs and returns
`false`; otherwise the date is tested with `dateFunc`. -/
def dateItemPred (parseRfc2822 : List Char → Option Int) (ros : RangeOrSetD)
    (item : Item) : PredResult :=
  match item.pubDate with
  | none => .panicked
  | some s =>
    match parseRfc2822 s with
    | none => .ok false
    | some d => .ok (dateFunc ros d)

/-- The compiled `Title` predicate (options.rs lines 89-108):
`i.title().unwrap().contains(...)` — the unwrap is reached for the range
variant, and for the set variant once the (never actually empty) set has
a member. -/
def titleItemPred (ros : RangeOrSetS) (item : Item) : PredResult :=
  match ros with
  | .range r =>
    match item.title with
    | none => .panicked
    | some t => .ok (isInfixOfB r.start t)
  | .set s =>
    if s.contents = ∅ then .ok false
    else match item.title with
      | none => .panicked
      | some t => .ok (decide (∃ v ∈ s.contents, isInfixOfB v.start t = true))

/-- The compiled `Description` predicate (options.rs lines 109-128),
identical to `Title` over the description field. -/
def descriptionItemPred (ros : RangeOrSetS) (item : Item) : PredResult :=
  match ros with
  | .range r =>
    match item.description with
    | none => .panicked
    | some t => .ok (isInfixOfB r.start t)
  | .set s =>
    if s.contents = ∅ then .ok false
    else match item.description with
      | none => .panicked
      | some t => .ok (decide (∃ v ∈ s.contents, isInfixOfB v.start t = true))

/-- The compiled `NotExists` predicate (options.rs lines 129-139):
`i.enclosure().unwrap()` then `i.title().unwrap()` (argument order of the
`create_file_path` call), then true iff the derived path does not exist
(`fileExists` is the filesystem capability). -/
def notExistsItemPred (fileExists : List Char → Bool) (feed : FeedM)
    (item : Item) : PredResult :=
  match item.enclosure with
  | none => .panicked
  | some enc =>
    match item.title with
    | none => .panicked
    | some t =>
      match create_file_path feed.configOutput enc.mimeType t with
      | none => .panicked
      | some p => .ok (!fileExists p)

/-! ## options.rs: the `latest` branch of `TryFrom<&str>` -/

/-- The `latest` branch of `TryFrom<&str> for QueryOperationOptions`
(options.rs lines 168-193), reached when the query string starts with
`latest`: everything after the first 6 bytes is trimmed; empty means
`end = None`; otherwise a leading `:` is stripped, the rest trimmed and
parsed as `u64`; the result is a `Number` range starting at 0. -/
def parseLatestBranch (options : List Char) : Except QueryErrorM QueryOperationOptions :=
  match
    (if (trim (options.drop 6)).isEmpty then .ok none
     else if containsChar ':' (trim (options.drop 6)) then
       if !((trim ((trim (options.drop 6)).drop 1)).isEmpty) then
         match parseU64 (trim ((trim (options.drop 6)).drop 1)) with
         | some n => .ok (some n)
         | none => .error (.Number .ParseInt)
       else .error (.Number .EmptyInput)
     else .error (.InvalidQueryOption options) :
      Except QueryErrorM (Option Nat)) with
  | .error e => .error e
  | .ok e => .ok (.Number (.range ⟨0, e⟩))

theorem trim_eq_self_of_not_ws {l : List Char} (h : ∀ c ∈ l, isWs c = false) :
    trim l = l := by
  unfold trim trimStart trimEnd
  rw [dropWhile_eq_self_of h,
    dropWhile_eq_self_of (fun c hc => h c (List.mem_reverse.mp hc)),
    List.reverse_reverse]

/-- C8: `latest` with no suffix compiles to the `Number` scalar `0`, whose
predicate accepts exactly ordinal 0; `latest:N` compiles to the `Number`
range `[0, N]`, whose predicate accepts exactly ordinals `0..N` inclusive
— in both cases tested against the ordinal argument, with the item itself
and the feed ignored. -/
theorem c8_latest_query (ds : List Char) (hne : ds ≠ [])
    (hd : ds.all Char.isDigit = true) (hb : digitsVal ds < u64Bound) :
    parseLatestBranch ('l' :: 'a' :: 't' :: 'e' :: 's' :: 't' :: []) =
      .ok (.Number (.range ⟨0, none⟩))
    ∧ (∀ item n feed, numberItemPred (.range ⟨0, none⟩) item n feed =
        .ok (n == 0))
    ∧ parseLatestBranch
        (('l' :: 'a' :: 't' :: 'e' :: 's' :: 't' :: ':' :: []) ++ ds) =
        .ok (.Number (.range ⟨0, some (digitsVal ds)⟩))
    ∧ (∀ item n feed, numberItemPred (.range ⟨0, some (digitsVal ds)⟩) item n feed =
        .ok (decide (n ≤ digitsVal ds))) := by
  refine ⟨by decide, ?_, ?_, ?_⟩
  · intro item n feed
    simp [numberItemPred, numberFunc, numberMatches]
  · unfold parseLatestBranch
    have hws : ∀ c ∈ ':' :: ds, isWs c = false := by
      intro c hc
      rcases List.mem_cons.mp hc with h | h
      · rw [h]; decide
      · exact isWs_eq_false_of_isDigit (by simpa using List.all_eq_true.mp hd c h)
    have htrim : trim ((('l' :: 'a' :: 't' :: 'e' :: 's' :: 't' :: ':' :: []) ++ ds).drop 6)
        = ':' :: ds := trim_eq_self_of_not_ws hws
    rw [htrim]
    rw [show containsChar ':' (':' :: ds) = true from by simp [containsChar]]
    simp only [List.isEmpty_cons, List.drop_succ_cons, List.drop_zero]
    rw [trim_eq_self_of_digits hd, isEmpty_eq_false_of_ne_nil hne,
      parseU64_digits hne hd hb]
    rfl
  · intro item n feed
    simp [numberItemPred, numberFunc, numberMatches]

/-- Witness for C8 at the concrete query `latest:3`. -/
theorem c8_latest_query_witness :
    parseLatestBranch
      (('l' :: 'a' :: 't' :: 'e' :: 's' :: 't' :: ':' :: []) ++ ['3']) =
      .ok (.Number (.range ⟨0, some 3⟩)) :=
  (c8_latest_query ['3'] (by decide) (by decide) (by decide)).2.2.1

/-- C9: evaluating a compiled `Date` predicate on an item whose
publish-date string fails RFC 2822 parsing returns `ok false`: the item
is silently excluded, no panic and no error escapes. -/
theorem c9_date_parse_failure_excludes (parseRfc2822 : List Char → Option Int)
    (ros : RangeOrSetD) (item : Item) (s : List Char)
    (hs : item.pubDate = some s) (hp : parseRfc2822 s = none) :
    dateItemPred parseRfc2822 ros item = .ok false := by
  unfold dateItemPred
  rw [hs]
  simp only [hp]

/-- Witness for C9: an always-failing date parser on a concrete item. -/
theorem c9_date_parse_failure_excludes_witness :
    dateItemPred (fun _ => none) (.range ⟨0, none⟩) ⟨none, none, some [], none⟩ =
      .ok false :=
  c9_date_parse_failure_excludes (fun _ => none) (.range ⟨0, none⟩)
    ⟨none, none, some [], none⟩ [] rfl rfl

/-- A `RangeOrSet<String>` that makes the field-`unwrap` of the
`Title`/`Description` closure reachable: any range, or a set with at
least one member (the parser never produces an empty set). -/
def rosNonempty (ros : RangeOrSetS) : Prop :=
  match ros with
  | .range _ => True
  | .set s => s.contents ≠ ∅

/-- C10: every compiled predicate `unwrap`s the fields it reads: an item
missing the publish date panics the `Date` predicate, one missing the
title (resp. description) panics the `Title` (resp. `Description`)
predicate, and one missing the enclosure or the title panics the
`NotExists` predicate — rather than yielding `false` or an error. -/
theorem c10_predicates_panic_on_missing_fields
    (parseRfc2822 : List Char → Option Int) (rosD : RangeOrSetD)
    (rosT rosDesc : RangeOrSetS) (fileExists : List Char → Bool)
    (feed : FeedM) (item : Item) :
    (item.pubDate = none → dateItemPred parseRfc2822 rosD item = .panicked)
    ∧ (item.title = none → rosNonempty rosT →
        titleItemPred rosT item = .panicked)
    ∧ (item.description = none → rosNonempty rosDesc →
        descriptionItemPred rosDesc item = .panicked)
    ∧ (item.enclosure = none →
        notExistsItemPred fileExists feed item = .panicked)
    ∧ (item.title = none →
        notExistsItemPred fileExists feed item = .panicked) := by
  refine ⟨?_, ?_, ?_, ?_, ?_⟩
  · intro h
    unfold dateItemPred
    rw [h]
  · intro h hne
    cases rosT with
    | range r => simp [titleItemPred, h]
    | set s =>
      have : ¬s.contents = ∅ := hne
      simp [titleItemPred, this, h]
  · intro h hne
    cases rosDesc with
    | range r => simp [descriptionItemPred, h]
    | set s =>
      have : ¬s.contents = ∅ := hne
      simp [descriptionItemPred, this, h]
  · intro h
    unfold notExistsItemPred
    rw [h]
  · intro h
    unfold notExistsItemPred
    cases henc : item.enclosure with
    | none => rfl
    | some enc => rw [h]

/-- Witness for C10: the empty item panics all four predicates. -/
theorem c10_predicates_panic_witness :
    dateItemPred (fun _ => none) (.range ⟨0, none⟩) ⟨none, none, none, none⟩ =
      .panicked
    ∧ titleItemPred (.range ⟨[], none⟩) ⟨none, none, none, none⟩ = .panicked
    ∧ descriptionItemPred (.range ⟨[], none⟩) ⟨none, none, none, none⟩ =
      .panicked
    ∧ notExistsItemPred (fun _ => false) ⟨[]⟩ ⟨none, none, none, none⟩ =
      .panicked := by
  have h := c10_predicates_panic_on_missing_fields (fun _ => none)
    (.range ⟨0, none⟩) (.range ⟨[], none⟩) (.range ⟨[], none⟩)
    (fun _ => false) ⟨[]⟩ ⟨none, none, none, none⟩
  exact ⟨h.1 rfl, h.2.1 rfl trivial, h.2.2.1 rfl trivial, h.2.2.2.1 rfl⟩

/-! ## feed.rs: the chunk retry loop of `download_and_store_item`

The HTTP environment enters as the list of statuses the server returns
for the successive requests of one chunk; the loop body (feed.rs lines
181-223) accepts 200/206, otherwise increments `retry_counter`, sleeps
`retry_counter * 300` ms (the post-increment value) and fails once the
counter exceeds `tries = 20`. The accumulated sleep durations are
returned so the backoff schedule is part of the observable result. -/

/-- A status the loop accepts: `StatusCode::OK` or
`StatusCode::PARTIAL_CONTENT` (feed.rs line 189). -/
def acceptableStatus (s : Nat) : Bool := s == 200 || s == 206

/-- Result of the retry loop for one chunk: success, failure carrying the
last status, or (never reached under the claims' scenarios) running out
of modelled responses. Each constructor carries the sleeps performed. -/
inductive ChunkOutcome
  | ok (sleeps : List Nat)
  | failed (status : Nat) (sleeps : List Nat)
  | exhausted (sleeps : List Nat)
deriving DecidableEq, Repr

/-- The `loop` of feed.rs lines 181-223 for one chunk: `statuses` are the
successive server responses, `counter` is `retry_counter` (initially 1),
`sleeps` the `thread::sleep` durations performed so far (ms). -/
def chunkLoop (tries : Nat) : List Nat → Nat → List Nat → ChunkOutcome
  | [], _, sleeps => .exhausted sleeps
  | s :: rest, counter, sleeps =>
    if acceptableStatus s then .ok sleeps
    else
      if counter + 1 > tries then .failed s (sleeps ++ [(counter + 1) * 300])
      else chunkLoop tries rest (counter + 1) (sleeps ++ [(counter + 1) * 300])

/-- Result of `download_and_store_item` over all chunks. -/
inductive ItemOutcome
  | ok
  | failed (status : Nat)
  | exhausted
deriving DecidableEq, Repr

/-- The `for (range, chunk) in PartialRangeIter::new(...)` loop of
feed.rs lines 177-224: each chunk runs its own retry loop with a fresh
`retry_counter = 1`; the first chunk failure fails the item. -/
def downloadItem (tries : Nat) : List (List Nat) → ItemOutcome
  | [] => .ok
  | c :: cs =>
    match chunkLoop tries c 1 [] with
    | .ok _ => downloadItem tries cs
    | .failed s _ => .failed s
    | .exhausted _ => .exhausted

/-- The backoff schedule of `k` consecutive failures starting from
`retry_counter = c`: the loop increments the counter and sleeps
`counter * 300` ms, so the sleeps are `(c+1)*300, (c+2)*300, …`. -/
def backoffSleeps (c k : Nat) : List Nat :=
  match k with
  | 0 => []
  | k + 1 => (c + 1) * 300 :: backoffSleeps (c + 1) k

theorem backoffSleeps_eq_map (c k : Nat) :
    backoffSleeps c k = (List.range k).map (fun i => (c + i + 1) * 300) := by
  induction k generalizing c with
  | zero => rfl
  | succ n ih =>
    rw [backoffSleeps, ih (c + 1), List.range_succ_eq_map, List.map_cons,
      List.map_map]
    simp only [List.cons.injEq]
    refine ⟨trivial, ?_⟩
    apply List.map_congr_left
    intro i hi
    show (c + 1 + i + 1) * 300 = (c + (i + 1) + 1) * 300
    omega

theorem chunkLoop_ok (tries : Nat) (bads : List Nat) (good : Nat)
    (rest : List Nat) (hgood : acceptableStatus good = true) :
    ∀ (c : Nat) (sleeps : List Nat), (∀ s ∈ bads, acceptableStatus s = false) →
    c + bads.length ≤ tries →
    chunkLoop tries (bads ++ good :: rest) c sleeps =
      .ok (sleeps ++ backoffSleeps c bads.length) := by
  induction bads with
  | nil =>
    intro c sleeps _ _
    simp [chunkLoop, hgood, backoffSleeps]
  | cons b bs ih =>
    intro c sleeps hbad hle
    have hb : acceptableStatus b = false := hbad b (by simp)
    rw [List.cons_append, chunkLoop, hb]
    simp only [Bool.false_eq_true, if_false]
    rw [if_neg (by simp at hle ⊢; omega)]
    rw [ih (c + 1) _ (fun s hs => hbad s (by simp [hs])) (by simp at hle ⊢; omega)]
    simp [backoffSleeps, List.append_assoc]

theorem getLastD_irrel {l : List Nat} (h : l ≠ []) (a b : Nat) :
    l.getLastD a = l.getLastD b := by
  rw [List.getLastD_eq_getLast?, List.getLastD_eq_getLast?]
  obtain ⟨x, xs, rfl⟩ := List.exists_cons_of_ne_nil h
  rw [List.getLast?_eq_getLast _ (by simp)]
  rfl

theorem chunkLoop_fail (tries : Nat) (bads : List Nat) (rest : List Nat) :
    ∀ (c : Nat) (sleeps : List Nat), (∀ s ∈ bads, acceptableStatus s = false) →
    bads ≠ [] → c + bads.length = tries + 1 →
    chunkLoop tries (bads ++ rest) c sleeps =
      .failed (bads.getLastD 0) (sleeps ++ backoffSleeps c bads.length) := by
  induction bads with
  | nil => intro _ _ _ hne _; exact absurd rfl hne
  | cons b bs ih =>
    intro c sleeps hbad hne hlen
    have hb : acceptableStatus b = false := hbad b (by simp)
    rw [List.cons_append, chunkLoop, hb]
    simp only [Bool.false_eq_true, if_false]
    by_cases hbs : bs = []
    · subst hbs
      rw [if_pos (by simp at hlen ⊢; omega)]
      simp [backoffSleeps]
    · rw [if_neg (by simp at hlen ⊢; have := List.length_pos.mpr hbs; omega)]
      rw [ih (c + 1) _ (fun s hs => hbad s (by simp [hs])) hbs
        (by simp at hlen ⊢; omega)]
      rw [List.getLastD_cons, getLastD_irrel hbs b 0]
      simp [backoffSleeps, List.append_assoc]

/-- C5: during one item's chunk download with `tries = 20`, a chunk whose
request fails with an unacceptable status exactly `k < 20` times and then
succeeds still completes (and the item completes), with the retry before
attempt `a` sleeping `a * 300` ms (the incremented counter value, i.e.
sleeps `2*300, …, (k+1)*300`); once the bad status recurs 20 times the
attempt counter exceeds 20 and the item fails with the last status. -/
theorem c5_chunk_retry (bads : List Nat) (good : Nat) (rest : List Nat)
    (hbad : ∀ s ∈ bads, acceptableStatus s = false)
    (hgood : acceptableStatus good = true) :
    (bads.length < 20 →
      chunkLoop 20 (bads ++ good :: rest) 1 [] =
        .ok (backoffSleeps 1 bads.length))
    ∧ (bads.length < 20 → downloadItem 20 [bads ++ good :: rest] = .ok)
    ∧ (bads.length = 20 →
      chunkLoop 20 (bads ++ rest) 1 [] =
        .failed (bads.getLastD 0) (backoffSleeps 1 20))
    ∧ (bads.length = 20 → ∀ more,
      downloadItem 20 ((bads ++ rest) :: more) = .failed (bads.getLastD 0))
    ∧ backoffSleeps 1 bads.length =
        (List.range bads.length).map (fun i => (i + 2) * 300) := by
  have hok : bads.length < 20 →
      chunkLoop 20 (bads ++ good :: rest) 1 [] =
        .ok (backoffSleeps 1 bads.length) := by
    intro hlt
    rw [chunkLoop_ok 20 bads good rest hgood 1 [] hbad (by omega)]
    rw [List.nil_append]
  have hfail : bads.length = 20 →
      chunkLoop 20 (bads ++ rest) 1 [] =
        .failed (bads.getLastD 0) (backoffSleeps 1 20) := by
    intro hlen
    rw [chunkLoop_fail 20 bads rest 1 [] hbad
      (by intro h; rw [h] at hlen; simp at hlen) (by omega)]
    rw [List.nil_append, hlen]
  refine ⟨hok, ?_, hfail, ?_, ?_⟩
  · intro hlt
    rw [downloadItem, hok hlt]
    rfl
  · intro hlen more
    rw [downloadItem, hfail hlen]
  · rw [backoffSleeps_eq_map]
    apply List.map_congr_left
    intro i hi
    omega

/-! ## main.rs: the outer retry loop of the download subcommand

The downloader enters as a function `f`: on pass `i` over candidate list
`dl`, `f i dl` is the list of failed items (`download_items` followed by
the failure extraction). The loop (main.rs lines 216-249) re-runs the
pass over exactly the previous failures, counts passes in `loops`, and
stops when the failure list is empty (`not_done = false`, success) or
`loops` reaches 10 (`not_done = true` unless that last pass was clean). -/

/-- The `loop` of main.rs lines 219-249: one pass computes the failures,
sets the candidate list to exactly them, increments `loops`, and breaks
on an empty failure list or on `loops >= 10`. Returns the final `loops`
value (number of passes executed) and `not_done`. -/
def retryLoop {α : Type} (f : Nat → List α → List α) (loops : Nat)
    (dl : List α) : Nat × Bool :=
  if (f loops dl).isEmpty ∨ loops + 1 ≥ 10 then
    (loops + 1, !(f loops dl).isEmpty)
  else retryLoop f (loops + 1) (f loops dl)
termination_by 10 - loops
decreasing_by omega

/-- The candidate list fed into pass `i`: the original list for pass 0,
and exactly the failures of pass `i` for pass `i + 1`. -/
def candAt {α : Type} (f : Nat → List α → List α) (dl : List α) : Nat → List α
  | 0 => dl
  | i + 1 => f i (candAt f dl i)

/-- The first pass index in `[k, k + fuel)` whose failure list is empty. -/
def firstEmptyFrom {α : Type} (f : Nat → List α → List α) (dl : List α) :
    Nat → Nat → Option Nat
  | _, 0 => none
  | k, fuel + 1 =>
    if (f k (candAt f dl k)).isEmpty then some k
    else firstEmptyFrom f dl (k + 1) fuel

theorem firstEmptyFrom_lt {α : Type} (f : Nat → List α → List α)
    (dl : List α) : ∀ (fuel k j : Nat),
    firstEmptyFrom f dl k fuel = some j → j < k + fuel := by
  intro fuel
  induction fuel with
  | zero => intro k j h; simp [firstEmptyFrom] at h
  | succ n ih =>
    intro k j h
    rw [firstEmptyFrom] at h
    split at h
    · simp at h
      omega
    · have := ih (k + 1) j h
      omega

theorem firstEmptyFrom_some_spec {α : Type} (f : Nat → List α → List α)
    (dl : List α) : ∀ (fuel k j : Nat),
    firstEmptyFrom f dl k fuel = some j →
    (f j (candAt f dl j)).isEmpty = true
    ∧ ∀ i, k ≤ i → i < j → (f i (candAt f dl i)).isEmpty = false := by
  intro fuel
  induction fuel with
  | zero => intro k j h; simp [firstEmptyFrom] at h
  | succ n ih =>
    intro k j h
    rw [firstEmptyFrom] at h
    split at h
    · rename_i hemp
      simp at h
      subst h
      exact ⟨hemp, fun i h1 h2 => absurd h1 (by omega)⟩
    · rename_i hemp
      obtain ⟨hj, hlt⟩ := ih (k + 1) j h
      refine ⟨hj, fun i h1 h2 => ?_⟩
      rcases Nat.eq_or_lt_of_le h1 with rfl | h1
      · simpa using hemp
      · exact hlt i h1 h2

theorem firstEmptyFrom_none_spec {α : Type} (f : Nat → List α → List α)
    (dl : List α) : ∀ (fuel k : Nat),
    firstEmptyFrom f dl k fuel = none →
    ∀ i, k ≤ i → i < k + fuel → (f i (candAt f dl i)).isEmpty = false := by
  intro fuel
  induction fuel with
  | zero => intro k _ i h1 h2; omega
  | succ n ih =>
    intro k h i h1 h2
    rw [firstEmptyFrom] at h
    split at h
    · simp at h
    · rename_i hemp
      rcases Nat.eq_or_lt_of_le h1 with rfl | h1
      · simpa using hemp
      · exact ih (k + 1) h i h1 (by omega)

theorem retryLoop_eq_firstEmptyFrom {α : Type} (f : Nat → List α → List α)
    (dl : List α) : ∀ (fuel k : Nat), k + fuel = 10 → 1 ≤ fuel →
    retryLoop f k (candAt f dl k) =
      (match firstEmptyFrom f dl k fuel with
       | some j => (j + 1, false)
       | none => (10, true)) := by
  intro fuel
  induction fuel with
  | zero => intro k _ h; omega
  | succ n ih =>
    intro k hk _
    rw [retryLoop, firstEmptyFrom]
    by_cases hemp : (f k (candAt f dl k)).isEmpty
    · rw [if_pos (Or.inl hemp), if_pos hemp, hemp]
      rfl
    · rw [if_neg hemp]
      by_cases hcap : k + 1 ≥ 10
      · rw [if_pos (Or.inr hcap)]
        have hn : n = 0 := by omega
        subst hn
        rw [show firstEmptyFrom f dl (k + 1) 0 = none from rfl]
        rw [Bool.not_eq_true] at hemp
        rw [hemp]
        have : k + 1 = 10 := by omega
        rw [this]
        rfl
      · rw [if_neg (by tauto)]
        rw [show f k (candAt f dl k) = candAt f dl (k + 1) from rfl]
        rw [ih (k + 1) (by omega) (by omega)]

/-- C6: the outer retry loop over failed downloads equals its closed
form: it stops after pass `j + 1` (declaring success) where `j` is the
first pass whose failure list is empty, or after pass 10 (declaring
failure) when no pass in the first ten comes back clean — so it executes
at most 10 passes, stops immediately on the first empty failure list,
and pass `i + 1` runs over exactly the failures of pass `i`
(`candAt f dl (i + 1) = f i (candAt f dl i)`). -/
theorem c6_outer_retry_loop {α : Type} (f : Nat → List α → List α)
    (dl : List α) :
    retryLoop f 0 dl =
      (match firstEmptyFrom f dl 0 10 with
       | some j => (j + 1, false)
       | none => (10, true))
    ∧ (retryLoop f 0 dl).1 ≤ 10
    ∧ (∀ i, candAt f dl (i + 1) = f i (candAt f dl i))
    ∧ (∀ j, firstEmptyFrom f dl 0 10 = some j →
        (f j (candAt f dl j)).isEmpty = true
        ∧ ∀ i, i < j → (f i (candAt f dl i)).isEmpty = false)
    ∧ (firstEmptyFrom f dl 0 10 = none →
        ∀ i, i < 10 → (f i (candAt f dl i)).isEmpty = false) := by
  have heq := retryLoop_eq_firstEmptyFrom f dl 10 0 rfl (by omega)
  rw [show candAt f dl 0 = dl from rfl] at heq
  refine ⟨heq, ?_, fun i => rfl, ?_, ?_⟩
  · rw [heq]
    cases hfe : firstEmptyFrom f dl 0 10 with
    | none => simp
    | some j =>
      have := firstEmptyFrom_lt f dl 10 0 j hfe
      simp
      omega
  · intro j hj
    obtain ⟨h1, h2⟩ := firstEmptyFrom_some_spec f dl 10 0 j hj
    exact ⟨h1, fun i hi => h2 i (by omega) hi⟩
  · intro h i hi
    exact firstEmptyFrom_none_spec f dl 10 0 h i (by omega) (by omega)

/-! ## feed.rs: `PartialRangeIter` (lines 244-278) -/

/-- The iterator state: `start`, `stop` (the Rust field `end`, a Lean
keyword) and `buffer_size`. -/
structure PartialRangeIter where
  start : Nat
  stop : Nat
  buffer_size : Nat
deriving DecidableEq, Repr

/-- `PartialRangeIter::new` (feed.rs lines 251-260): rejects
`buffer_size == 0` with an error. -/
def PartialRangeIter.new (s e k : Nat) : Except (List Char) PartialRangeIter :=
  if k == 0 then
    .error "invalid buffer_size, give a value greater than zero.".toList
  else .ok ⟨s, e, k⟩

/-- `Iterator::next` (feed.rs lines 265-277): `none` once `start > end`;
otherwise advance `start` by `min(buffer_size, end - start + 1)` and
yield the inclusive byte range `(prev_start, start - 1)` (the `Range`
header text) paired with `start - 1 - prev_start` (the `chunk` value),
plus the successor state. -/
def PartialRangeIter.next (it : PartialRangeIter) :
    Option (((Nat × Nat) × Nat) × PartialRangeIter) :=
  if it.start > it.stop then none
  else
    some (((it.start,
            it.start + min it.buffer_size (it.stop - it.start + 1) - 1),
           it.start + min it.buffer_size (it.stop - it.start + 1) - 1 - it.start),
          { it with start := it.start + min it.buffer_size (it.stop - it.start + 1) })

/-- Run the iterator to exhaustion, fuelled (fuel `end + 1 - start`
suffices whenever `buffer_size ≥ 1`). -/
def runIter : Nat → PartialRangeIter → List ((Nat × Nat) × Nat)
  | 0, _ => []
  | fuel + 1, it =>
    match it.next with
    | none => []
    | some (out, it2) => out :: runIter fuel it2

/-- The byte ranges the iterator yields for `[s, e]` with chunk size `k`. -/
def iterRanges (s e k : Nat) : List (Nat × Nat) :=
  (runIter (e + 1 - s) ⟨s, e, k⟩).map (fun x => x.1)

/-- `covers l s e`: the ranges in `l` are consecutive inclusive intervals
that exactly tile `[s, e]` in order, with no gap and no overlap. -/
def covers : List (Nat × Nat) → Nat → Nat → Bool
  | [], s, e => s == e + 1
  | (a, b) :: rest, s, e =>
    (a == s) && decide (a ≤ b) && decide (b ≤ e) && covers rest (b + 1) e

theorem runIter_of_next_none {fuel : Nat} {it : PartialRangeIter}
    (h : it.next = none) : runIter fuel it = [] := by
  cases fuel with
  | zero => rfl
  | succ n => rw [runIter, h]

theorem runIter_covers (k : Nat) (hk : 1 ≤ k) (e : Nat) :
    ∀ (fuel s : Nat), e + 1 - s ≤ fuel → s ≤ e →
    covers ((runIter fuel ⟨s, e, k⟩).map (fun x => x.1)) s e = true
    ∧ ∀ p ∈ (runIter fuel ⟨s, e, k⟩).map (fun x => x.1),
        p.2 + 1 - p.1 = min k (e + 1 - p.1) := by
  intro fuel
  induction fuel with
  | zero => intro s hf hs; omega
  | succ n ih =>
    intro s hf hs
    have hnext : PartialRangeIter.next ⟨s, e, k⟩ =
        some (((s, s + min k (e - s + 1) - 1),
               s + min k (e - s + 1) - 1 - s),
              ⟨s + min k (e - s + 1), e, k⟩) := by
      unfold PartialRangeIter.next
      rw [if_neg (by simp; omega)]
    have hm1 : 1 ≤ min k (e - s + 1) := by omega
    have hmle : min k (e - s + 1) ≤ e - s + 1 := by omega
    rw [runIter, hnext]
    dsimp only
    by_cases hdone : e < s + min k (e - s + 1)
    · have hstop : PartialRangeIter.next ⟨s + min k (e - s + 1), e, k⟩ = none := by
        unfold PartialRangeIter.next
        rw [if_pos (by simp; omega)]
      rw [runIter_of_next_none hstop]
      constructor
      · simp only [List.map_cons, List.map_nil, covers]
        have h1 : s + min k (e - s + 1) - 1 ≤ e := by omega
        have h2 : s ≤ s + min k (e - s + 1) - 1 := by omega
        have h3 : s + min k (e - s + 1) - 1 + 1 = e + 1 := by omega
        simp [h1, h2, h3]
      · intro p hp
        simp only [List.map_cons, List.map_nil, List.mem_singleton] at hp
        subst hp
        simp only []
        omega
    · push_neg at hdone
      obtain ⟨ihc, ihs⟩ := ih (s + min k (e - s + 1)) (by omega) hdone
      constructor
      · simp only [List.map_cons, covers]
        have h2 : s ≤ s + min k (e - s + 1) - 1 := by omega
        have h1 : s + min k (e - s + 1) - 1 ≤ e := by omega
        have h3 : s + min k (e - s + 1) - 1 + 1 = s + min k (e - s + 1) := by
          omega
        simp only [beq_self_eq_true, Bool.true_and, h2, h1, decide_true_eq_true,
          Bool.true_and, h3]
        simp [h1, h2, h3, ihc]
      · intro p hp
        simp only [List.map_cons, List.mem_cons] at hp
        rcases hp with rfl | hp
        · simp only []
          omega
        · exact ihs p hp

/-- C7: for every `start ≤ end` and `buffer_size ≥ 1`, the byte-range
iterator yields in order consecutive disjoint inclusive ranges exactly
covering `[start, end]`, each spanning `min(buffer_size, remaining)`
bytes; `next` returns `None` as soon as `start` exceeds `end`; and
construction with `buffer_size == 0` fails with an error. -/
theorem c7_partial_range_iter (s e k : Nat) (hs : s ≤ e) (hk : 1 ≤ k) :
    covers (iterRanges s e k) s e = true
    ∧ (∀ p ∈ iterRanges s e k, p.2 + 1 - p.1 = min k (e + 1 - p.1))
    ∧ (∀ it : PartialRangeIter, it.stop < it.start → it.next = none)
    ∧ PartialRangeIter.new s e 0 =
        .error "invalid buffer_size, give a value greater than zero.".toList := by
  obtain ⟨h1, h2⟩ := runIter_covers k hk e (e + 1 - s) s (by omega) hs
  refine ⟨h1, h2, ?_, rfl⟩
  intro it hlt
  unfold PartialRangeIter.next
  rw [if_pos hlt]

/-- Witness for C7 at `start = 0`, `end = 10`, `buffer_size = 4`. -/
theorem c7_partial_range_iter_witness :
    covers (iterRanges 0 10 4) 0 10 = true
    ∧ ∀ p ∈ iterRanges 0 10 4, p.2 + 1 - p.1 = min 4 (10 + 1 - p.1) := by
  have h := c7_partial_range_iter 0 10 4 (by decide) (by decide)
  exact ⟨h.1, h.2.1⟩

/-- Witness for C5: one bad status (500) then a 200 completes the chunk
after a single 600 ms backoff sleep. -/
theorem c5_chunk_retry_witness :
    chunkLoop 20 ([500] ++ 200 :: []) 1 [] =
      .ok (backoffSleeps 1 [500].length) :=
  (c5_chunk_retry [500] 200 [] (by decide) (by decide)).1 (by decide)

/-- Witness for C6: a downloader with no failures stops after one pass,
declaring success. -/
theorem c6_outer_retry_loop_witness :
    retryLoop (fun _ _ => ([] : List Nat)) 0 [1] = (1, false) := by
  rw [(c6_outer_retry_loop (fun _ _ => ([] : List Nat)) [1]).1]
  decide

/-- Witness for the amended C3 at the counterexample's sets. -/
theorem c3_set_eq_amended_witness :
    SetN.eqOp ⟨∅⟩ ⟨{⟨0, none⟩}⟩ = true ↔
      (⟨∅⟩ : SetN).contents ⊆ (⟨{⟨0, none⟩}⟩ : SetN).contents :=
  c3_set_eq_amended ⟨∅⟩ ⟨{⟨0, none⟩}⟩

end Dumptruck
